import Mathlib

/-!
Verification development for the reconciliation engine of
`src/discrepancy_detector.py` (Discrepancy-Checker-Web).

The engine's core is two functions, `normalize_columns` and
`find_discrepancies`, operating on pandas DataFrames.  We embed them
shallowly:

* a DataFrame is a `Table`: an ordered list of column headers and an
  ordered list of rows, each row a list of cell values positionally
  aligned with the headers;
* a cell value is a Python string or integer (`Value`);
* `row.get(col)` is `rowGet` (returns `none` when the column is absent);
* Python truthiness (`if not po_number`) is `isFalsy`; Python `==` across
  `None`/str/int is `pyEq`;
* `normalize_columns` uses `df.rename(columns=..., inplace=True)`, an
  in-place mutation that returns the same object: the Lean function
  gives the table's contents after the call, which is simultaneously the
  return value and the new state of the caller's table object;
* the statement `matched = invoice_df[invoice_df.get('po number') == po_number]`
  raises `KeyError` when the invoice table has no `'po number'` column
  (the `.get` default `None` compared to a truthy scalar gives the plain
  boolean `False`, and `invoice_df[False]` is a failed column lookup), so
  `find_discrepancies` is embedded as `Except`-valued, `.error ()`
  standing for the raised exception.
-/

/-- A raw cell value as the engine sees it: a Python string or a Python
integer (numeric cells such as amounts and quantities). -/
inductive Value where
  | s (str : String)
  | i (int : Int)
deriving DecidableEq, Repr

/-- A pandas DataFrame as used by the engine: an ordered header list and
ordered rows, each row positionally aligned with the headers. -/
structure Table where
  headers : List String
  rows : List (List Value)
deriving DecidableEq, Repr

/-- Python `str.lower()` applied to a header string, character by
character (all headers and aliases involved are ASCII). -/
def lower (str : String) : String := String.mk (str.data.map Char.toLower)

/-- The module-level `COLUMN_MAP` dict of the source, in its insertion
order: canonical column name paired with its recognized alias list. -/
def COLUMN_MAP : List (String × List String) :=
  [("po number", ["po number", "po id", "po detail", "purchase order"]),
   ("invoice number", ["invoice number", "inv no", "invoice id"]),
   ("vendor", ["vendor", "supplier", "vendor name", "supplier name"]),
   ("total amount", ["total amount", "amount", "total"]),
   ("quantity", ["quantity", "qty"]),
   ("currency", ["currency", "curr"])]

/-- The canonical column names: the keys of `COLUMN_MAP`. -/
def CANONICAL : List String := COLUMN_MAP.map (fun p => p.1)

/-- The `new_cols` dict built inside `normalize_columns`: for each
canonical name, the first alias present in the lowercased header list is
mapped to the canonical name (`for v in variants: if v in df_cols:
new_cols[v] = std; break`).  Keys across entries are distinct because the
alias lists of `COLUMN_MAP` are pairwise disjoint. -/
def new_cols (df_cols : List String) : List (String × String) :=
  COLUMN_MAP.foldl (fun acc p =>
    match p.2.find? (fun v => df_cols.contains v) with
    | some v => acc ++ [(v, p.1)]
    | none => acc) []

/-- Application of the rename dict to one actual column name, as
`df.rename(columns=new_cols)` does: a column whose name is a key of the
dict is renamed, any other column keeps its name. -/
def applyRename (nc : List (String × String)) (c : String) : String :=
  match nc.lookup c with
  | some std => std
  | none => c

/-- `normalize_columns(df)` of the source: lowercase the headers to build
`df_cols`, build the rename dict `new_cols`, and rename in place.  Note
the rename dict is keyed on the lowercase alias string, while the rename
matches column names verbatim.  Rows are untouched.  Because the rename
is `inplace=True`, this value is both the function's return value and the
state of the caller's DataFrame after the call. -/
def normalize_columns (df : Table) : Table :=
  { df with
    headers := df.headers.map (applyRename (new_cols (df.headers.map lower))) }

/-- `row.get(col)` on a pandas row: the cell under the column when the
column exists (first occurrence for the header name), `None` otherwise. -/
def rowGet (headers : List String) (row : List Value) (c : String) : Option Value :=
  match headers.indexOf? c with
  | some idx => row.get? idx
  | none => none

/-- Python truthiness test `not x` applied to a possibly missing cell:
`None`, the empty string and the integer 0 are falsy. -/
def isFalsy : Option Value → Bool
  | none => true
  | some (Value.s str) => str == ""
  | some (Value.i int) => int == 0

/-- Python `==` on two cell values: strings compare to strings, integers
to integers, and a string never equals an integer. -/
def valEq : Value → Value → Bool
  | Value.s a, Value.s b => a == b
  | Value.i a, Value.i b => a == b
  | _, _ => false

/-- Python `==` on two possibly missing values: `None == None` is `True`,
`None` never equals a present value. -/
def pyEq : Option Value → Option Value → Bool
  | none, none => true
  | some a, some b => valEq a b
  | _, _ => false

/-- One row of the engine's output table: a discrepancy dict of
`find_discrepancies`.  Either the no-matching-invoice dict, a field
mismatch dict, or the sentinel message dict. -/
inductive Entry where
  | noMatch (poNumber : Value)
  | fieldDiff (poNumber : Value) (field : String) (poValue invoiceValue : Option Value)
  | message (msg : String)
deriving DecidableEq, Repr

/-- The PO number an output row refers to, when it refers to one (the
sentinel message row refers to none). -/
def entryPO : Entry → Option Value
  | Entry.noMatch poNumber => some poNumber
  | Entry.fieldDiff poNumber _ _ _ => some poNumber
  | Entry.message _ => none

/-- The fixed comparison-field list of the source:
`for col in ['total amount', 'vendor', 'quantity', 'currency']`. -/
def COMPARE_COLS : List String := ["total amount", "vendor", "quantity", "currency"]

/-- The field-comparison loop run on a matched PO/Invoice row pair: one
`fieldDiff` entry per comparison column whose two values differ under
Python `!=`, in the fixed column order. -/
def diffEntries (poNumber : Value) (poHeaders : List String) (poRow : List Value)
    (invHeaders : List String) (invRow : List Value) : List Entry :=
  COMPARE_COLS.filterMap (fun col =>
    let pv := rowGet poHeaders poRow col
    let iv := rowGet invHeaders invRow col
    if pyEq pv iv then none else some (Entry.fieldDiff poNumber col pv iv))

/-- The body of the per-PO-row iteration of `find_discrepancies`: skip a
row with falsy `po number`; otherwise filter the invoice rows on exact
equality of the `po number` cell (raising, as the source does via
`invoice_df[False]`, when the invoice table has no `'po number'` column);
an empty match list yields the no-matching-invoice entry, otherwise the
first matched row (`matched.iloc[0]`) is compared field by field. -/
def rowEntries (poHeaders : List String) (poRow : List Value) (inv : Table) :
    Except Unit (List Entry) :=
  let po_number := rowGet poHeaders poRow "po number"
  if isFalsy po_number then Except.ok []
  else
    match po_number with
    | none => Except.ok []
    | some pn =>
      if inv.headers.contains "po number" then
        match inv.rows.filter (fun r => pyEq (rowGet inv.headers r "po number") (some pn)) with
        | [] => Except.ok [Entry.noMatch pn]
        | invRow :: _ => Except.ok (diffEntries pn poHeaders poRow inv.headers invRow)
      else Except.error ()

/-- The whole `for _, po_row in po_df.iterrows()` loop: concatenation of
the per-row entries in PO row order, propagating a raised exception. -/
def all_entries (poHeaders : List String) (poRows : List (List Value)) (inv : Table) :
    Except Unit (List Entry) :=
  match poRows with
  | [] => Except.ok []
  | r :: rs =>
    match rowEntries poHeaders r inv with
    | Except.error e => Except.error e
    | Except.ok es =>
      match all_entries poHeaders rs inv with
      | Except.error e => Except.error e
      | Except.ok rest => Except.ok (es ++ rest)

/-- `find_discrepancies(po_df, invoice_df)` of the source: normalize both
tables (in place), run the matching loop, and return the accumulated
discrepancy list, or the single sentinel message row when that list is
empty. -/
def find_discrepancies (po_df invoice_df : Table) : Except Unit (List Entry) :=
  let po := normalize_columns po_df
  let inv := normalize_columns invoice_df
  match all_entries po.headers po.rows inv with
  | Except.error e => Except.error e
  | Except.ok ds =>
    Except.ok (if ds.isEmpty then [Entry.message "No discrepancies found!"] else ds)

/-! ## Helper lemmas (shared across several claims) -/

/-- Mapping a function over a list is the identity exactly when the
function fixes every element of the list. -/
theorem map_eq_self_iff_forall {α : Type} {f : α → α} :
    ∀ {l : List α}, l.map f = l ↔ ∀ x ∈ l, f x = x := by
  intro l
  induction l with
  | nil => simp
  | cons a l ih => simp [ih]

/-- A successful `List.lookup` exhibits a pair of the association list. -/
theorem lookup_mem_of_eq_some :
    ∀ {nc : List (String × String)} {c std : String},
      nc.lookup c = some std → (c, std) ∈ nc := by
  intro nc
  induction nc with
  | nil => intro c std h; simp [List.lookup] at h
  | cons q l ih =>
    intro c std h
    rcases q with ⟨k, v⟩
    cases hbeq : c == k with
    | true =>
      simp only [List.lookup, hbeq] at h
      injection h with hv
      rw [eq_of_beq hbeq, ← hv]
      exact List.mem_cons_self _ _
    | false =>
      simp only [List.lookup, hbeq] at h
      exact List.mem_cons_of_mem _ (ih h)

/-- The first element a filter keeps is the element `find?` returns. -/
theorem find_eq_head_filter {α : Type} (p : α → Bool) :
    ∀ (l : List α), l.find? p = (l.filter p).head? := by
  intro l
  induction l with
  | nil => rfl
  | cons a l ih =>
    rw [List.find?_cons, List.filter_cons]
    cases hp : p a with
    | true => rfl
    | false => simp

/-- Membership in the fold that builds the `new_cols` dict: every pair
of the dict is a chosen alias together with its canonical name. -/
theorem mem_foldl_new_cols (f : (String × List String) → Option String) :
    ∀ (l : List (String × List String)) (init : List (String × String))
      (q : String × String),
      q ∈ l.foldl (fun acc p =>
        match f p with
        | some v => acc ++ [(v, p.1)]
        | none => acc) init →
      q ∈ init ∨ ∃ p ∈ l, f p = some q.1 ∧ q.2 = p.1 := by
  intro l
  induction l with
  | nil => intro init q h; exact Or.inl h
  | cons p l ih =>
    intro init q h
    rw [List.foldl_cons] at h
    rcases ih _ q h with hmem | ⟨p2, hp2, hf, hq⟩
    · revert hmem
      cases hf : f p with
      | none => intro hmem; exact Or.inl hmem
      | some v =>
        intro hmem
        rcases List.mem_append.mp hmem with h1 | h2
        · exact Or.inl h1
        · right
          refine ⟨p, List.mem_cons_self _ _, ?_, ?_⟩
          · have hq : q = (v, p.1) := by simpa using h2
            rw [hq, hf]
          · have hq : q = (v, p.1) := by simpa using h2
            rw [hq]
    · exact Or.inr ⟨p2, List.mem_cons_of_mem _ hp2, hf, hq⟩

/-- Every pair of the `new_cols` dict pairs an alias `v` present in the
lowercased header list with the canonical name whose variant list
contains `v`. -/
theorem mem_new_cols {df_cols : List String} {q : String × String}
    (hq : q ∈ new_cols df_cols) :
    ∃ p ∈ COLUMN_MAP, q.1 ∈ p.2 ∧ df_cols.contains q.1 = true ∧ q.2 = p.1 := by
  rcases mem_foldl_new_cols (fun p => p.2.find? (fun v => df_cols.contains v))
      COLUMN_MAP [] q hq with h | ⟨p, hp, hf, hq2⟩
  · simp at h
  · refine ⟨p, hp, ?_, ?_, hq2⟩
    · exact List.mem_of_find?_eq_some hf
    · exact List.find?_some hf

/-! ## Claim theorems -/

/-- C1: whenever `find_discrepancies` returns a report (does not raise),
that report is never structurally empty — an empty concatenation of
discrepancy entries is replaced by the single sentinel message row
"No discrepancies found!", so the output table always has at least one
row. -/
theorem find_discrepancies_report_nonempty (po inv : Table) (ds : List Entry)
    (h : find_discrepancies po inv = Except.ok ds) : ds ≠ [] := by
  simp only [find_discrepancies] at h
  split at h
  · exact absurd h (by simp)
  · simp only [Except.ok.injEq] at h
    subst h
    split
    · simp
    · rename_i hne
      intro hnil
      rw [hnil] at hne
      simp at hne

/-- Witness for C1 at concrete input: the empty PO and Invoice tables
produce the sentinel report, which is nonempty. -/
theorem find_discrepancies_report_nonempty_witness :
    ([Entry.message "No discrepancies found!"] : List Entry) ≠ [] :=
  find_discrepancies_report_nonempty { headers := [], rows := [] }
    { headers := [], rows := [] } _ rfl

/-- C2 (code bug evidence): alias resolution is NOT case-insensitive in
the code.  The rename dict is keyed on the lowercase alias, so the header
"PO Number" is detected as an alias but never actually renamed, while the
already-lowercase alias "po id" is renamed to "po number"; consequently a
PO table whose header is "PO Number" loses its record entirely (sentinel
report) even though a matching invoice exists. -/
theorem header_case_not_renamed :
    (normalize_columns { headers := ["PO Number"], rows := [[Value.s "PO1"]] }).headers =
        ["PO Number"] ∧
    (normalize_columns { headers := ["PO NUMBER"], rows := [[Value.s "PO1"]] }).headers =
        ["PO NUMBER"] ∧
    (normalize_columns { headers := ["po id"], rows := [[Value.s "PO1"]] }).headers =
        ["po number"] ∧
    find_discrepancies { headers := ["PO Number"], rows := [[Value.s "PO1"]] }
        { headers := ["po number"], rows := [[Value.s "PO1"]] } =
      Except.ok [Entry.message "No discrepancies found!"] :=
  ⟨rfl, rfl, rfl, rfl⟩

/-- C5 (code bug evidence): the engine is not exception-free on malformed
input.  When the Invoice table has no `'po number'` column and the PO
table has a row with a truthy PO number, the source evaluates
`invoice_df[invoice_df.get('po number') == po_number]` as
`invoice_df[False]` and raises `KeyError` instead of degrading to a
"no matching invoice" entry.  (The dual case — the PO table missing the
column — does degrade gracefully to the sentinel report.) -/
theorem missing_invoice_po_column_raises :
    find_discrepancies { headers := ["po number"], rows := [[Value.s "PO1"]] }
        { headers := ["invoice number"], rows := [[Value.s "I1"]] } = Except.error () ∧
    find_discrepancies { headers := ["vendor"], rows := [[Value.s "Acme"]] }
        { headers := ["invoice number"], rows := [[Value.s "I1"]] } =
      Except.ok [Entry.message "No discrepancies found!"] :=
  ⟨rfl, rfl⟩

/-- C6 (counterexample): schema normalization is not side-effect-free.
`df.rename(columns=..., inplace=True)` mutates the caller's table: on a
table with the already-lowercase alias header "qty" the table after the
call differs from the table before it, so the result is an in-place
mutation of the input, not a fresh value. -/
theorem normalize_columns_mutates_input :
    normalize_columns { headers := ["qty"], rows := [[Value.s "5"]] } ≠
      { headers := ["qty"], rows := [[Value.s "5"]] } := by decide

/-- C6 (amended): `normalize_columns` renames in place rather than
returning a fresh value, so the caller's input table is not in general
left unchanged; it is left unchanged exactly when the rename dict
computed from the lowercased headers fixes every header of the table. -/
theorem normalize_columns_noop_iff_rename_fixes_headers (t : Table) :
    normalize_columns t = t ↔
      ∀ c ∈ t.headers, applyRename (new_cols (t.headers.map lower)) c = c := by
  constructor
  · intro h
    have hh : t.headers.map (applyRename (new_cols (t.headers.map lower))) = t.headers :=
      congrArg Table.headers h
    exact map_eq_self_iff_forall.mp hh
  · intro h
    have hh : t.headers.map (applyRename (new_cols (t.headers.map lower))) = t.headers :=
      map_eq_self_iff_forall.mpr h
    unfold normalize_columns
    cases t with
    | mk headers rows => simp only at hh ⊢; rw [hh]

/-- C7: Scenario A of the spec.  PO row
`{po number: "PO1", vendor: "Acme", total amount: 100}` against Invoice
row `{invoice number: "I1", po number: "PO1", vendor: "Acme Corp",
total amount: 100}` yields exactly one discrepancy entry: the vendor
mismatch for PO number "PO1" with PO value "Acme" and invoice value
"Acme Corp". -/
theorem scenario_a_single_vendor_discrepancy :
    find_discrepancies
        { headers := ["po number", "vendor", "total amount"],
          rows := [[Value.s "PO1", Value.s "Acme", Value.i 100]] }
        { headers := ["invoice number", "po number", "vendor", "total amount"],
          rows := [[Value.s "I1", Value.s "PO1", Value.s "Acme Corp", Value.i 100]] } =
      Except.ok [Entry.fieldDiff (Value.s "PO1") "vendor"
        (some (Value.s "Acme")) (some (Value.s "Acme Corp"))] :=
  rfl

/-- C10: normalization never changes the number of rows, their order, or
any cell value — the rows of the normalized table are literally those of
the input (so every cell value appears unchanged, in place, under the
column of the same position) — and no column is removed: the header list
keeps its length, headers matching no alias included. -/
theorem normalize_columns_rows_and_width_preserved (t : Table) :
    (normalize_columns t).rows = t.rows ∧
    (normalize_columns t).headers.length = t.headers.length :=
  ⟨rfl, by simp [normalize_columns]⟩

/-- Inside `COLUMN_MAP`, an alias that is itself one of the canonical
names can only be the canonical name of its own entry: the alias lists
contain no canonical name of a different entry. -/
theorem canonical_variant_eq_std :
    ∀ p ∈ COLUMN_MAP, ∀ v ∈ p.2, v ∈ CANONICAL → v = p.1 := by decide

/-- Every canonical column name is already lowercase. -/
theorem lower_fixes_canonical : ∀ c ∈ CANONICAL, lower c = c := by decide

/-- When every header is canonical, the rename dict computed from those
headers fixes every string: each of its pairs maps a string to itself. -/
theorem applyRename_fixes_of_canonical {hs : List String}
    (hsub : ∀ c ∈ hs, c ∈ CANONICAL) (c : String) :
    applyRename (new_cols hs) c = c := by
  unfold applyRename
  cases hl : (new_cols hs).lookup c with
  | none => rfl
  | some std =>
    rcases mem_new_cols (lookup_mem_of_eq_some hl) with ⟨p, hp, hv, hcon, hstd⟩
    have hcmem : c ∈ hs := by simpa using hcon
    have hceq : c = p.1 := canonical_variant_eq_std p hp c hv (hsub c hcmem)
    have hstd2 : std = c := by rw [hceq]; exact hstd
    simp [hstd2]

/-- C8: normalizing a table whose headers are already the canonical field
names is a no-op — not only on row content (rows are untouched) but on
the whole table: every canonical name is lowercase and maps to itself in
the rename dict, so the header list is unchanged as well. -/
theorem normalize_canonical_headers_noop (t : Table)
    (h : ∀ c ∈ t.headers, c ∈ CANONICAL) : normalize_columns t = t := by
  have hmap : t.headers.map lower = t.headers :=
    map_eq_self_iff_forall.mpr (fun c hc => lower_fixes_canonical c (h c hc))
  have hfix : ∀ c ∈ t.headers, applyRename (new_cols (t.headers.map lower)) c = c := by
    intro c hc
    rw [hmap]
    exact applyRename_fixes_of_canonical h c
  have hh := map_eq_self_iff_forall.mpr hfix
  unfold normalize_columns
  cases t with
  | mk headers rows => simp only at hh ⊢; rw [hh]

/-- Witness for C8 at a concrete canonical-headed table. -/
theorem normalize_canonical_headers_noop_witness :
    normalize_columns
        { headers := ["po number", "vendor", "total amount"],
          rows := [[Value.s "PO1", Value.s "Acme", Value.i 100]] } =
      { headers := ["po number", "vendor", "total amount"],
        rows := [[Value.s "PO1", Value.s "Acme", Value.i 100]] } :=
  normalize_canonical_headers_noop _ (by decide)

/-- Each entry emitted by the field-comparison loop carries the PO number
of the matched pair. -/
theorem mem_diffEntries_entryPO {pn : Value} {poHeaders : List String}
    {poRow : List Value} {invHeaders : List String} {invRow : List Value} {e : Entry}
    (he : e ∈ diffEntries pn poHeaders poRow invHeaders invRow) :
    entryPO e = some pn := by
  rcases List.mem_filterMap.mp he with ⟨col, hcol, hf⟩
  by_cases hpe : pyEq (rowGet poHeaders poRow col) (rowGet invHeaders invRow col) = true
  · simp [hpe] at hf
  · simp only [Bool.not_eq_true] at hpe
    simp only [hpe, Bool.false_eq_true, if_false, Option.some.injEq] at hf
    rw [← hf]
    rfl

/-- Structural case analysis of one iteration of the matching loop: a
non-raising iteration either skips the row, reports it unmatched, or
compares it with the first matching invoice row; in the latter two cases
the row's PO number is truthy. -/
theorem rowEntries_cases {poHeaders : List String} {poRow : List Value}
    {inv : Table} {es : List Entry}
    (h : rowEntries poHeaders poRow inv = Except.ok es) :
    es = [] ∨
    ∃ pn, rowGet poHeaders poRow "po number" = some pn ∧ isFalsy (some pn) = false ∧
      (es = [Entry.noMatch pn] ∨
       ∃ invRow, es = diffEntries pn poHeaders poRow inv.headers invRow) := by
  simp only [rowEntries] at h
  split at h
  · simp only [Except.ok.injEq] at h
    exact Or.inl h.symm
  · rename_i hfalsy
    split at h
    · simp only [Except.ok.injEq] at h
      exact Or.inl h.symm
    · rename_i pn hpn
      split at h
      · rename_i hcon
        split at h
        · rename_i hfilter
          simp only [Except.ok.injEq] at h
          rw [hpn] at hfalsy
          exact Or.inr ⟨pn, hpn, by simpa using hfalsy, Or.inl h.symm⟩
        · rename_i invRow tl hfilter
          simp only [Except.ok.injEq] at h
          rw [hpn] at hfalsy
          exact Or.inr ⟨pn, hpn, by simpa using hfalsy, Or.inr ⟨invRow, h.symm⟩⟩
      · exact absurd h (by simp)

/-- Every entry produced by one non-raising iteration refers to a truthy
(non-missing, non-empty) PO number. -/
theorem rowEntries_entries_nonfalsy {poHeaders : List String} {poRow : List Value}
    {inv : Table} {es : List Entry}
    (h : rowEntries poHeaders poRow inv = Except.ok es) :
    ∀ e ∈ es, ∀ pn, entryPO e = some pn → isFalsy (some pn) = false := by
  intro e he pn hpn
  rcases rowEntries_cases h with hnil | ⟨pn0, _, hfalsy, hcase⟩
  · rw [hnil] at he
    simp at he
  · rcases hcase with hone | ⟨invRow, hdiff⟩
    · rw [hone] at he
      have he2 : e = Entry.noMatch pn0 := by simpa using he
      rw [he2] at hpn
      have : pn0 = pn := by simpa [entryPO] using hpn
      rw [← this]
      exact hfalsy
    · rw [hdiff] at he
      have := mem_diffEntries_entryPO he
      rw [this] at hpn
      have : pn0 = pn := by simpa using hpn
      rw [← this]
      exact hfalsy

/-- Every entry accumulated by the whole matching loop refers to a truthy
PO number. -/
theorem all_entries_entries_nonfalsy {poHeaders : List String}
    {rows : List (List Value)} {inv : Table} {es : List Entry}
    (h : all_entries poHeaders rows inv = Except.ok es) :
    ∀ e ∈ es, ∀ pn, entryPO e = some pn → isFalsy (some pn) = false := by
  induction rows generalizing es with
  | nil =>
    simp only [all_entries, Except.ok.injEq] at h
    rw [← h]
    simp
  | cons r rs ih =>
    simp only [all_entries] at h
    split at h
    · exact absurd h (by simp)
    · rename_i es1 h1
      split at h
      · exact absurd h (by simp)
      · rename_i rest h2
        simp only [Except.ok.injEq] at h
        rw [← h]
        intro e he pn hpn
        rcases List.mem_append.mp he with h3 | h3
        · exact rowEntries_entries_nonfalsy h1 e h3 pn hpn
        · exact ih h2 e h3 pn hpn

/-- C3: a PO record whose PO number is missing or empty is excluded from
matching entirely.  First conjunct: its loop iteration produces no entry
at all (neither a match comparison nor a "no matching invoice" row).
Second conjunct: every discrepancy entry of any produced report refers to
a truthy PO number, so no entry can reference such a record. -/
theorem excluded_po_record_unreferenced :
    (∀ (poHeaders : List String) (poRow : List Value) (inv : Table),
        rowGet poHeaders poRow "po number" = none ∨
          rowGet poHeaders poRow "po number" = some (Value.s "") →
        rowEntries poHeaders poRow inv = Except.ok []) ∧
    (∀ (po inv : Table) (ds : List Entry),
        find_discrepancies po inv = Except.ok ds →
        ∀ e ∈ ds, ∀ pn, entryPO e = some pn → isFalsy (some pn) = false) := by
  constructor
  · intro poHeaders poRow inv h
    rcases h with h | h <;> simp [rowEntries, h, isFalsy]
  · intro po inv ds h e he pn hpn
    simp only [find_discrepancies] at h
    split at h
    · exact absurd h (by simp)
    · rename_i ds0 h0
      simp only [Except.ok.injEq] at h
      subst h
      split at he
      · have he2 : e = Entry.message "No discrepancies found!" := by simpa using he
        rw [he2] at hpn
        simp [entryPO] at hpn
      · exact all_entries_entries_nonfalsy h0 e he pn hpn

/-- Witness for C3: a row with empty PO number yields no entries, and the
PO number referenced by a concrete produced entry is truthy. -/
theorem excluded_po_record_unreferenced_witness :
    rowEntries ["po number"] [Value.s ""] { headers := [], rows := [] } = Except.ok [] ∧
    isFalsy (some (Value.s "PO1")) = false :=
  ⟨excluded_po_record_unreferenced.1 _ _ _ (Or.inr rfl),
   excluded_po_record_unreferenced.2
     { headers := ["po number", "vendor"], rows := [[Value.s "PO1", Value.s "A"]] }
     { headers := ["po number", "vendor"], rows := [[Value.s "PO1", Value.s "B"]] }
     [Entry.fieldDiff (Value.s "PO1") "vendor" (some (Value.s "A")) (some (Value.s "B"))] rfl
     (Entry.fieldDiff (Value.s "PO1") "vendor" (some (Value.s "A")) (some (Value.s "B")))
     (by simp) (Value.s "PO1") rfl⟩

/-- One non-raising iteration of the matching loop contributes at most
four entries: zero for a skipped row, one for an unmatched row, and one
per differing comparison column (of which there are four) for a matched
row. -/
theorem rowEntries_length_le {poHeaders : List String} {poRow : List Value}
    {inv : Table} {es : List Entry}
    (h : rowEntries poHeaders poRow inv = Except.ok es) : es.length ≤ 4 := by
  rcases rowEntries_cases h with hnil | ⟨pn, _, _, hone | ⟨invRow, hdiff⟩⟩
  · rw [hnil]; simp
  · rw [hone]; simp
  · rw [hdiff]
    calc (diffEntries pn poHeaders poRow inv.headers invRow).length
        ≤ COMPARE_COLS.length := List.length_filterMap_le _ _
      _ ≤ 4 := by decide

/-- The whole matching loop contributes at most four entries per PO
row. -/
theorem all_entries_length_le {poHeaders : List String}
    {rows : List (List Value)} {inv : Table} {es : List Entry}
    (h : all_entries poHeaders rows inv = Except.ok es) :
    es.length ≤ 4 * rows.length := by
  induction rows generalizing es with
  | nil =>
    simp only [all_entries, Except.ok.injEq] at h
    rw [← h]
    simp
  | cons r rs ih =>
    simp only [all_entries] at h
    split at h
    · exact absurd h (by simp)
    · rename_i es1 h1
      split at h
      · exact absurd h (by simp)
      · rename_i rest h2
        simp only [Except.ok.injEq] at h
        rw [← h]
        have b1 := rowEntries_length_le h1
        have b2 := ih h2
        simp only [List.length_append, List.length_cons]
        omega

/-- C9: the report size is bounded per PO record.  First conjunct: a PO
record with a truthy PO number and no matching invoice row contributes
exactly one entry (the "no matching invoice" row).  Second conjunct: any
non-raising iteration contributes at most four entries (one per
comparison field that differs).  Third conjunct: a produced report is
either the single sentinel row or has at most 4 × |PO rows| rows. -/
theorem report_row_bound :
    (∀ (poHeaders : List String) (poRow : List Value) (inv : Table) (pn : Value),
        rowGet poHeaders poRow "po number" = some pn →
        isFalsy (some pn) = false →
        inv.headers.contains "po number" = true →
        inv.rows.filter (fun r => pyEq (rowGet inv.headers r "po number") (some pn)) = [] →
        rowEntries poHeaders poRow inv = Except.ok [Entry.noMatch pn]) ∧
    (∀ (poHeaders : List String) (poRow : List Value) (inv : Table) (es : List Entry),
        rowEntries poHeaders poRow inv = Except.ok es → es.length ≤ 4) ∧
    (∀ (po inv : Table) (ds : List Entry),
        find_discrepancies po inv = Except.ok ds →
        ds = [Entry.message "No discrepancies found!"] ∨
          ds.length ≤ 4 * po.rows.length) := by
  refine ⟨?_, ?_, ?_⟩
  · intro poHeaders poRow inv pn h1 h2 h3 h4
    have h3m : "po number" ∈ inv.headers := by simpa using h3
    simp [rowEntries, h1, h2, h3, h3m, h4]
  · intro poHeaders poRow inv es h
    exact rowEntries_length_le h
  · intro po inv ds h
    simp only [find_discrepancies] at h
    split at h
    · exact absurd h (by simp)
    · rename_i ds0 h0
      simp only [Except.ok.injEq] at h
      subst h
      split
      · exact Or.inl rfl
      · exact Or.inr (all_entries_length_le h0)

/-- Witness for C9: Scenario B shaped input — a PO row with PO number
"PO2" and an invoice table with no matching row produces exactly the one
"no matching invoice" entry. -/
theorem report_row_bound_witness :
    rowEntries ["po number"] [Value.s "PO2"]
        { headers := ["po number"], rows := [[Value.s "PO9"]] } =
      Except.ok [Entry.noMatch (Value.s "PO2")] :=
  report_row_bound.1 _ _ _ _ rfl rfl rfl rfl

/-- C4 (counterexample to the trimming clause): the key comparison is a
plain exact equality, not even a whitespace-trimmed compare.  The PO
number "PO1" and the invoice PO number " PO1" are equal once surrounding
whitespace is stripped (second conjunct exhibits the whitespace), yet the
engine selects no invoice row and reports "no matching invoice". -/
theorem trimmed_equal_po_numbers_not_matched :
    find_discrepancies { headers := ["po number"], rows := [[Value.s "PO1"]] }
        { headers := ["po number"], rows := [[Value.s " PO1"]] } =
      Except.ok [Entry.noMatch (Value.s "PO1")] ∧
    (" PO1" : String) = " " ++ "PO1" :=
  ⟨rfl, rfl⟩

/-- C4 (amended): for a PO record with a truthy PO number, the matcher
scans the invoice rows in table order and uses the first row whose
`'po number'` cell is exactly equal (Python `==`, no trimming or numeric
normalization) to the PO record's PO number; all later duplicate matches
are ignored — the emitted entries are computed from that first row
alone. -/
theorem first_match_selected (poHeaders : List String) (poRow : List Value)
    (inv : Table) (pn : Value) (invRow : List Value)
    (h1 : rowGet poHeaders poRow "po number" = some pn)
    (h2 : isFalsy (some pn) = false)
    (h3 : inv.headers.contains "po number" = true)
    (h4 : inv.rows.find? (fun r => pyEq (rowGet inv.headers r "po number") (some pn)) =
      some invRow) :
    rowEntries poHeaders poRow inv =
      Except.ok (diffEntries pn poHeaders poRow inv.headers invRow) := by
  rw [find_eq_head_filter] at h4
  cases hf : inv.rows.filter (fun r => pyEq (rowGet inv.headers r "po number") (some pn)) with
  | nil =>
    rw [hf] at h4
    simp at h4
  | cons a tl =>
    rw [hf] at h4
    simp only [List.head?_cons, Option.some.injEq] at h4
    subst h4
    have h3m : "po number" ∈ inv.headers := by simpa using h3
    simp [rowEntries, h1, h2, h3, h3m, hf]

/-- Witness for C4 (amended) at a concrete input with two invoice rows
matching "PO1": the comparison runs against the first row (vendor "A"),
the later duplicate (vendor "B") is ignored. -/
theorem first_match_selected_witness :
    rowEntries ["po number"] [Value.s "PO1"]
        { headers := ["po number", "vendor"],
          rows := [[Value.s "PO1", Value.s "A"], [Value.s "PO1", Value.s "B"]] } =
      Except.ok (diffEntries (Value.s "PO1") ["po number"] [Value.s "PO1"]
        ["po number", "vendor"] [Value.s "PO1", Value.s "A"]) :=
  first_match_selected _ _ _ _ _ rfl rfl rfl rfl
